import Mathlib

set_option maxHeartbeats 1000000
set_option maxRecDepth 4000

/-!
Shallow embedding of the command-execution core of the xonsh shell:
the redirection parser, proc-proxy runtime, command resolver, alias table,
logical-connective stages and pipeline executor found in
src/xonsh/proc.py, src/xonsh/built_ins.py and src/xonsh/jobs_not_implemented.py.

Strings coming from the Python code are modelled as Lean `String`
(or `List Char` where character-level scanning is performed); Python byte
files are modelled as `List Char` over their byte values; fallible Python
code returns `Except`; the mutable stream-binding dictionary is the
`Streams` structure of three `Option` fields.
-/

namespace Xonsh

/-! ## Basic text helpers (models of str.strip and shlex.split on quote-free input) -/

/-- Whitespace characters as treated by Python str.strip and str.split. -/
def isSpace (c : Char) : Bool := c = ' ' || c = '\t' || c = '\n' || c = '\r'

/-- Accumulator-style word splitter: splits a character list on whitespace,
dropping empty pieces.  Models shlex.split for the quote-free strings that
appear in the sources and claims (where shlex.split coincides with
whitespace splitting). -/
def splitWsAux : List Char → List Char → List (List Char)
  | [], cur => if cur = [] then [] else [cur.reverse]
  | c :: rest, cur =>
    if isSpace c then
      if cur = [] then splitWsAux rest [] else cur.reverse :: splitWsAux rest []
    else splitWsAux rest (c :: cur)

/-- Whitespace word split of a character list. -/
def splitWsL (l : List Char) : List (List Char) := splitWsAux l []

/-- Word split at the `String` level; models shlex.split on quote-free input. -/
def shlexSplit (s : String) : List String := (splitWsL s.data).map String.mk

/-- Drop trailing whitespace (right half of str.strip). -/
def trimRightWs (l : List Char) : List Char := (l.reverse.dropWhile isSpace).reverse

/-- Model of Python str.strip on a character list. -/
def trimWs (l : List Char) : List Char := trimRightWs (l.dropWhile isSpace)

/-- Boolean prefix test on character lists (models str.startswith). -/
def isPre : List Char → List Char → Bool
  | [], _ => true
  | _ :: _, [] => false
  | a :: as, b :: bs => a = b && isPre as bs

/-- Model of os.path.basename for slash-separated paths: the part of the
string after the last '/'. -/
def basename (s : String) : String :=
  String.mk ((s.data.reverse.takeWhile (fun c => c ≠ '/')).reverse)

/-- Model of the extension part of os.path.splitext: the suffix of the
basename starting at its last dot, where the leading dots of the basename
do not count as extension separators. -/
def extOf (s : String) : String :=
  let b := (basename s).data
  let stem := b.dropWhile (fun c => c = '.')
  if stem.any (fun c => c = '.') then
    String.mk ('.' :: (stem.reverse.takeWhile (fun c => c ≠ '.')).reverse)
  else ""

/-! ## Exit-status normaliser (proc.py, get_return_code)

A stage returncode is either a boolean (proc proxies and composite stages)
or an OS integer exit code. -/

/-- Value stored in a stage returncode field. -/
inductive RC
  | b (v : Bool)
  | i (n : Int)
deriving DecidableEq

/-- Model of get_return_code (proc.py lines 652-656): booleans pass through,
integers succeed exactly when zero. -/
def get_return_code (rc : RC) : Bool :=
  match rc with
  | .b v => v
  | .i n => decide (n = 0)

/-! ## Logical connective stages (proc.py, AndProc.run and OrProc.run)

The recursive call "get_proc(cmd); o.wait(); o.returncode" on a
sub-command-list is abstracted as a function from commands to their
returncode.  Each run function returns the composite returncode
together with the list of sub-commands that were built and waited on,
in execution order. -/

/-- Model of AndProc.run (proc.py lines 666-674): wait on cmd1; a false
normalised status short-circuits to False, otherwise cmd2 is built and its
normalised status adopted. -/
def andProcRun {α : Type} (ex : α → RC) (cmd1 cmd2 : α) : Bool × List α :=
  if get_return_code (ex cmd1) = false then (false, [cmd1])
  else (get_return_code (ex cmd2), [cmd1, cmd2])

/-- Model of OrProc.run (proc.py lines 685-693): wait on cmd1; a true
normalised status short-circuits to True, otherwise cmd2 is built and its
normalised status adopted. -/
def orProcRun {α : Type} (ex : α → RC) (cmd1 cmd2 : α) : Bool × List α :=
  if get_return_code (ex cmd1) = true then (true, [cmd1])
  else (get_return_code (ex cmd2), [cmd1, cmd2])

/-! ## Redirection parser (proc.py, _redirect_io and friends) -/

/-- A value bound to a standard stream by the redirection parser: an opened
file (with its open mode), a raw integer file descriptor, or the
subprocess.STDOUT merge marker. -/
inductive RBind
  | file (path : String) (mode : Char)
  | fd (n : Nat)
  | stdoutMerge
deriving DecidableEq

/-- The per-stage stream-binding dictionary: a field is `none` exactly when
the corresponding key is absent from the Python streams dict. -/
structure Streams where
  stdin : Option RBind
  stdout : Option RBind
  stderr : Option RBind
deriving DecidableEq

/-- The initially empty stream-binding dictionary. -/
def emptyStreams : Streams := ⟨none, none, none⟩

/-- Effective redirection target: the optional loc argument of _redirect_io,
possibly replaced by an integer file descriptor by the fd-duplication
branch. -/
inductive Tgt
  | noLoc
  | path (s : String)
  | fd (n : Nat)
deriving DecidableEq

/-- Errors escaping _redirect_io: a XonshError with its message, a
file-open failure (XonshError built from the target), the AttributeError
from matching a non-redirection token, and the ValueError from int('') in
the fd-duplication branch. -/
inductive RErr
  | xonsh (msg : String)
  | xonshNoFile (t : Tgt)
  | attributeError
  | valueError
deriving DecidableEq

def mStderr : String := "Multiple redirects for stderr"
def mStdout : String := "Multiple redirects for stdout"
def mStdin : String := "Multiple inputs for stdin"
def mUnrec (r : String) : String := "Unrecognized redirection command: " ++ r

/-- The _E2O_MAP set from proc.py lines 364-367: every err marker combined
with every non-empty out marker. -/
def E2O_MAP : List String :=
  ["2>1", "2>o", "2>out", "e>1", "e>o", "e>out", "err>1", "err>o", "err>out"]

/-- Model of r.replace with all ampersands deleted. -/
def stripAmp (r : String) : String := String.mk (r.data.filter (fun c => c ≠ '&'))

/-- The redirection operators recognised by _REDIR_REGEX. -/
inductive ROp
  | lt
  | gt
  | gtgt
deriving DecidableEq

/-- Names matched by the _REDIR_NAME fragment of _REDIR_REGEX:
o, out, e, err, a, all, the empty name, an ampersand, a single digit, or
an ampersand followed by a single digit. -/
def isRedirName : List Char → Bool
  | [] => true
  | ['o'] => true
  | ['o', 'u', 't'] => true
  | ['e'] => true
  | ['e', 'r', 'r'] => true
  | ['a'] => true
  | ['a', 'l', 'l'] => true
  | ['&'] => true
  | [c] => c.isDigit
  | ['&', c] => c.isDigit
  | _ => false

/-- Split a token at its first redirection-operator occurrence.  Since the
name fragments never contain '<' or '>', this is exactly how the anchored
_REDIR_REGEX decomposes a matching token. -/
def splitOp : List Char → Option (List Char × ROp × List Char)
  | [] => none
  | '<' :: rest => some ([], .lt, rest)
  | '>' :: '>' :: rest => some ([], .gtgt, rest)
  | '>' :: rest => some ([], .gt, rest)
  | c :: rest =>
    match splitOp rest with
    | none => none
    | some (p, op, d) => some (c :: p, op, d)

/-- Model of _REDIR_REGEX.match(r).groups(): the orig name, the operator,
and the dest name, or `none` when the token does not match. -/
def parseRedir (r : String) : Option (List Char × ROp × List Char) :=
  match splitOp r.data with
  | none => none
  | some (orig, op, dest) =>
    if isRedirName orig && isRedirName dest then some (orig, op, dest) else none

/-- Model of Python int() restricted to the digit strings the regex can
produce: fails on the empty list (the ValueError of int('')). -/
def digitsToNat? (l : List Char) : Option Nat :=
  if l ≠ [] && l.all Char.isDigit then
    some (l.foldl (fun a c => a * 10 + (c.toNat - 48)) 0)
  else none

/-- Model of _open (proc.py lines 374-381): integer fds pass through, a file
system oracle `fs` decides whether opening a path in a mode succeeds, and a
missing target raises the no-such-file XonshError. -/
def openTarget (fs : String → Char → Bool) (t : Tgt) (mode : Char) : Except RErr RBind :=
  match t with
  | .fd n => .ok (.fd n)
  | .noLoc => .error (.xonshNoFile .noLoc)
  | .path s => if fs s mode then .ok (.file s mode) else .error (.xonshNoFile (.path s))

/-- The initial effective target from the optional loc argument. -/
def tgtOfLoc (loc : Option String) : Tgt :=
  match loc with
  | none => .noLoc
  | some s => .path s

/-- Model of the fd-duplication preamble of _redirect_io (proc.py lines
395-406): a dest beginning with an ampersand is parsed as an integer fd;
int('') propagates ValueError; an fd dest combined with a separate loc
argument raises the unrecognised-redirection XonshError. -/
def dupStep (r : String) (loc : Option String) (dest : List Char) :
    Except RErr (Tgt × List Char) :=
  match dest with
  | '&' :: ds =>
    match digitsToNat? ds with
    | none => .error .valueError
    | some n =>
      match loc with
      | none => .ok (.fd n, [])
      | some _ => .error (.xonsh (mUnrec r))
  | _ => .ok (tgtOfLoc loc, dest)

/-- The stderr-to-stdout special case of _redirect_io (proc.py lines
386-390). -/
def e2oStep (streams : Streams) : Except RErr Streams :=
  if streams.stderr.isSome then .error (.xonsh mStderr)
  else .ok { streams with stderr := some RBind.stdoutMerge }

/-- The read-mode branch of _redirect_io (proc.py lines 410-416). -/
def readStep (fs : String → Char → Bool) (streams : Streams) (r : String)
    (orig dest : List Char) (tgt : Tgt) : Except RErr Streams :=
  if orig.length > 0 ∨ dest.length > 0 then .error (.xonsh (mUnrec r))
  else if streams.stdin.isSome then .error (.xonsh mStdin)
  else
    match openTarget fs tgt 'r' with
    | .error e => .error e
    | .ok b => .ok { streams with stdin := some b }

/-- The write-mode branch of _redirect_io (proc.py lines 417-446): the orig
name selects the target streams, already-bound targets and non-empty dest
names raise, and the opened value is bound to every target. -/
def writeStep (fs : String → Char → Bool) (streams : Streams) (r : String)
    (orig dest : List Char) (tgt : Tgt) (mode : Char) : Except RErr Streams :=
  if orig = ['&'] ∨ orig = ['a'] ∨ orig = ['a', 'l', 'l'] then
    if streams.stderr.isSome then .error (.xonsh mStderr)
    else if streams.stdout.isSome then .error (.xonsh mStdout)
    else if dest.length > 0 then .error (.xonsh (mUnrec r))
    else
      match openTarget fs tgt mode with
      | .error e => .error e
      | .ok b => .ok { streams with stdout := some b, stderr := some b }
  else if orig = ['2'] ∨ orig = ['e'] ∨ orig = ['e', 'r', 'r'] then
    if streams.stderr.isSome then .error (.xonsh mStderr)
    else if dest.length > 0 then .error (.xonsh (mUnrec r))
    else
      match openTarget fs tgt mode with
      | .error e => .error e
      | .ok b => .ok { streams with stderr := some b }
  else if orig = [] ∨ orig = ['1'] ∨ orig = ['o'] ∨ orig = ['o', 'u', 't'] then
    if streams.stdout.isSome then .error (.xonsh (mStdout))
    else if dest.length > 0 then .error (.xonsh (mUnrec r))
    else
      match openTarget fs tgt mode with
      | .error e => .error e
      | .ok b => .ok { streams with stdout := some b }
  else .error (.xonsh (mUnrec r))

/-- Model of _redirect_io (proc.py lines 384-449): the stderr-merge special
case is checked first on the token with ampersands deleted; otherwise the
token is matched by the redirection regex (AttributeError on failure), the
fd-duplication preamble runs, and the mode selects the read or write
branch. -/
def redirectStreams (fs : String → Char → Bool) (streams : Streams) (r : String)
    (loc : Option String) : Except RErr Streams :=
  if stripAmp r ∈ E2O_MAP then e2oStep streams
  else
    match parseRedir r with
    | none => .error .attributeError
    | some (orig, op, dest0) =>
      match dupStep r loc dest0 with
      | .error e => .error e
      | .ok (tgt, dest) =>
        match op with
        | .lt => readStep fs streams r orig dest tgt
        | .gt => writeStep fs streams r orig dest tgt 'w'
        | .gtgt => writeStep fs streams r orig dest tgt 'a'

/-! ## Alias table (built_ins.py, Aliases) -/

/-- An alias value: a token list, or a callable identified by a numeric
tag. -/
inductive AliasVal
  | toks (ts : List String)
  | call (id : Nat)
deriving DecidableEq

/-- The raw alias dictionary, as an insertion-ordered association list with
unique keys (Python dict). -/
abbrev AliasTab : Type := List (String × AliasVal)

/-- Result of a successful alias evaluation: a token list, or a callable
together with the accumulated argument tokens bound in front of the real
arguments. -/
inductive AliasRes
  | toks (ts : List String)
  | call (id : Nat) (boundArgs : List String)
deriving DecidableEq

/-- Outcome of eval_alias: a result, the ValueError raised by unpacking an
empty token list, or fuel exhaustion of the fuelled evaluator (shown
unreachable for sufficient fuel). -/
inductive EvalOut
  | ok (r : AliasRes)
  | valueError
  | fuelOut
deriving DecidableEq

/-- Lookup in the raw alias dictionary. -/
def lookupRaw : AliasTab → String → Option AliasVal
  | [], _ => none
  | (k', v) :: rest, k => if k' = k then some v else lookupRaw rest k

/-- Number of table keys not yet in the seen set: the quantity that shrinks
at every recursive eval_alias call. -/
def unseenCount (A : AliasTab) (seen : List String) : Nat :=
  ((A.map Prod.fst).filter (fun k => !(decide (k ∈ seen)))).length

/-- Fuelled model of Aliases.eval_alias (built_ins.py lines 53-82):
callables capture the accumulated arguments; a token list stops as soon as
its head token is in the seen set or is not a key, returning the value plus
accumulated trailing args; otherwise the head expands recursively with the
head added to the seen set and the tail prepended to the accumulated
args. -/
def evalAliasF (A : AliasTab) : Nat → AliasVal → List String → List String → EvalOut
  | 0, _, _, _ => .fuelOut
  | _ + 1, .call id, _, acc => .ok (.call id acc)
  | _ + 1, .toks [], _, _ => .valueError
  | fuel + 1, .toks (t :: rest), seen, acc =>
    match lookupRaw A t with
    | none => .ok (.toks (t :: rest ++ acc))
    | some v =>
      if t ∈ seen then .ok (.toks (t :: rest ++ acc))
      else evalAliasF A fuel v (t :: seen) (rest ++ acc)

/-- Aliases.eval_alias, run with provably sufficient fuel. -/
def eval_alias (A : AliasTab) (v : AliasVal) (seen acc : List String) : EvalOut :=
  evalAliasF A (unseenCount A seen + 1) v seen acc

/-- Outcome of Aliases.get: the default (key absent) or the eval_alias
outcome. -/
inductive GetOut
  | missing
  | out (o : EvalOut)
deriving DecidableEq

/-- Model of Aliases.get (built_ins.py lines 36-51) restricted to the
well-typed values of our table: a missing key returns the default, a
present value is evaluated with the key as the initial seen set. -/
def aliasGet (A : AliasTab) (k : String) : GetOut :=
  match lookupRaw A k with
  | none => .missing
  | some v => .out (eval_alias A v [k] [])

/-- Python dict assignment on the association list: replace in place when
the key exists, else append. -/
def rawSet (A : AliasTab) (k : String) (v : AliasVal) : AliasTab :=
  if (A.map Prod.fst).contains k then
    A.map (fun kv => if kv.1 = k then (k, v) else kv)
  else A ++ [(k, v)]

/-- Model of Aliases setitem (built_ins.py lines 91-95) for string values:
the string is word-split before storage. -/
def setItemStr (A : AliasTab) (k s : String) : AliasTab :=
  rawSet A k (.toks (shlexSplit s))

/-- The alias table of the concrete scenario: l holds "ls -CF" and ls holds
"ls --color=auto", both entered through setitem. -/
def exTable : AliasTab := setItemStr (setItemStr [] "l" "ls -CF") "ls" "ls --color=auto"

/-- A mutually cyclic two-entry table, used to witness cycle-safe
termination. -/
def cycTab : AliasTab := [("a", .toks ["b"]), ("b", .toks ["a"])]

/-- A one-entry table whose value has a head that is not a key. -/
def fixTable : AliasTab := [("x", AliasVal.toks ["echo", "hi"])]

/-! ## Proc-proxy runtime (proc.py, ProcProxy.run and SimpleProcProxy) -/

/-- Observable state of a proc proxy: the returncode slot (None while the
function has not finished) and the text written to the child-side stdout
and stderr streams. -/
structure ProxyState where
  returncode : Option RC
  stdoutData : String
  stderrData : String
deriving DecidableEq

/-- Model of ProcProxy.run (proc.py lines 144-173): with no function the
state is untouched; otherwise the function is applied to the args and the
stdin text (an empty StringIO when stdin is absent), its stream writes are
appended, and the returncode becomes its return value when that value is
non-null and True otherwise.  A four-arg callable is modelled as returning
its optional exit value and the text it wrote to stdout and stderr. -/
def procProxyRun (f : Option (List String → String → Option RC × String × String))
    (args : List String) (stdinData : Option String) (st : ProxyState) : ProxyState :=
  match f with
  | none => st
  | some f =>
    let spIn := match stdinData with | some s => s | none => ""
    let res := f args spIn
    { returncode := some (res.1.getD (RC.b true)),
      stdoutData := st.stdoutData ++ res.2.1,
      stderrData := st.stderrData ++ res.2.2 }

/-- Return value of a simple (two-arg) callable as the wrapper inspects it:
a string, an arbitrary-length sequence of optional strings, some other
non-null value (kept as its str()), or null. -/
inductive SimpleRes
  | str (s : String)
  | seq (l : List (Option String))
  | other (s : String)
  | nil
deriving DecidableEq

/-- Model of wrapped_simple_command (proc.py lines 336-352): any exception
from the callable yields False; a string result is written to stdout; a
sequence result has its items 0 and 1 written to stdout and stderr (an
IndexError from a too-short sequence is swallowed by the same handler and
yields False, after any stdout write already performed); other non-null
results are stringified to stdout; success returns True.  The result is
the wrapper return value with the stdout and stderr text produced. -/
def wrapped_simple_command (f : List String → String → Except Unit SimpleRes)
    (args : List String) (stdinData : String) : Bool × String × String :=
  match f args stdinData with
  | .error _ => (false, "", "")
  | .ok r =>
    match r with
    | .str s => (true, s, "")
    | .seq [] => (false, "", "")
    | .seq [a] => (false, a.getD "", "")
    | .seq (a :: b :: _) => (true, a.getD "", b.getD "")
    | .other s => (true, s, "")
    | .nil => (true, "", "")

/-- The four-arg function that SimpleProcProxy passes to ProcProxy: the
wrapper applied, returning its boolean as the exit value. -/
def simpleWrapped (f : List String → String → Except Unit SimpleRes) :
    List String → String → Option RC × String × String :=
  fun args i =>
    let w := wrapped_simple_command f args i
    (some (RC.b w.1), w.2.1, w.2.2)

/-- Model of a SimpleProcProxy run (proc.py lines 334-355): ProcProxy.run
over the wrapped simple command. -/
def simpleProcProxyRun (f : List String → String → Except Unit SimpleRes)
    (args : List String) (stdinData : Option String) (st : ProxyState) : ProxyState :=
  procProxyRun (some (simpleWrapped f)) args stdinData st

/-- Shapes of simple-callable results whose handling completes without an
internal IndexError: everything except a sequence of fewer than two
items. -/
def goodShape : SimpleRes → Prop
  | .seq l => 2 ≤ l.length
  | _ => True

/-- A simple callable returning a one-element sequence without raising. -/
def c4f : List String → String → Except Unit SimpleRes :=
  fun _ _ => .ok (.seq [some "x"])

/-- A fresh proxy state. -/
def st0 : ProxyState := ⟨none, "", ""⟩

/-! ## Command resolver (proc.py, _is_binary, _un_shebang,
get_script_subproc_command) -/

/-- A resolved script file: its executable bit and its byte content
(modelled at character level). -/
structure SFile where
  isExec : Bool
  content : List Char

/-- The scanning loop of _is_binary (proc.py lines 471-481): up to limit
single-byte reads; a NUL is binary, a newline or end of file stops the scan
as non-binary. -/
def is_binary_scan : List Char → Nat → Bool
  | _, 0 => false
  | [], _ => false
  | c :: rest, n + 1 =>
    if c = Char.ofNat 0 then true
    else if c = '\n' then false
    else is_binary_scan rest n

/-- Model of _is_binary with its default limit of 80. -/
def is_binary (content : List Char) : Bool := is_binary_scan content 80

/-- Model of _un_shebang (proc.py lines 484-493): /usr/bin/env disappears,
well-known bin prefixes reduce to the basename, python variants normalise
to python, and the shell's own name becomes the module invocation. -/
def un_shebang (x : String) : List String :=
  if x = "/usr/bin/env" then []
  else
    let x :=
      if ["/usr/bin", "/usr/local/bin", "/bin"].any (fun i => isPre i.data x.data) then
        basename x
      else if isPre "python".data.reverse x.data.reverse
          || isPre "python.exe".data.reverse x.data.reverse then
        "python"
      else x
    if x = "xonsh" then ["python", "-m", "xonsh.main"] else [x]

/-- The first line of a file: everything before the first newline (readline
followed by strip drops the newline anyway). -/
def readFirstLine (content : List Char) : List Char :=
  content.takeWhile (fun c => c ≠ '\n')

/-- Model of the RE_SHEBANG match and interpreter extraction
(proc.py lines 520-530) applied to the stripped first line: a line starting
with the shebang marker yields the word-split remainder when non-blank;
otherwise xonsh is the default interpreter. -/
def shebangInterp (line : List Char) : List String :=
  match line with
  | c1 :: c2 :: rest =>
    if c1 = '#' ∧ c2 = '!' then
      let s := trimWs rest
      if s = [] then ["xonsh"] else (splitWsL s).map String.mk
    else ["xonsh"]
  | _ => ["xonsh"]

/-- The error raised by get_script_subproc_command on a non-executable
file. -/
inductive ScriptErr
  | permissionError
deriving DecidableEq

/-- Model of get_script_subproc_command (proc.py lines 496-538): reject
non-executable files; call binaries directly; on Windows call PATHEXT
extensions directly; otherwise read the shebang interpreter from the first
line, normalise it through _un_shebang on Windows only, and build the final
argv. -/
def get_script_subproc_command (onWindows : Bool) (pathext : List String)
    (file : SFile) (fname : String) (args : List String) :
    Except ScriptErr (List String) :=
  if !file.isExec then .error .permissionError
  else if is_binary file.content then .ok (fname :: args)
  else if onWindows && pathext.contains (extOf fname).toUpper then .ok (fname :: args)
  else
    let firstLine := trimWs (readFirstLine file.content)
    let interp := shebangInterp firstLine
    let interp := if onWindows then List.flatten (interp.map un_shebang) else interp
    .ok (interp ++ fname :: args)

/-- An executable text script whose first line is a /usr/bin/env python3
shebang. -/
def envScript : SFile := ⟨true, "#!/usr/bin/env python3\nprint(1)\n".data⟩

/-- An executable file containing a NUL byte within its first 80 bytes but
after a newline. -/
def nulAfterNl : SFile := ⟨true, ['a', '\n', 'b', Char.ofNat 0, 'c']⟩

/-- An executable file whose very first byte is NUL. -/
def binFile : SFile := ⟨true, [Char.ofNat 0]⟩

/-- A NUL byte occurs within the first limit bytes of the content, with no
newline at an earlier offset: the exact condition under which the
_is_binary scan reports binary. -/
def hasEarlyNul (content : List Char) (limit : Nat) : Prop :=
  ∃ i, i < limit ∧ i < content.length ∧ content.getD i ' ' = Char.ofNat 0 ∧
    ∀ j, j < i → content.getD j ' ' ≠ '\n'

/-! ## Pipeline executor (built_ins.py run_subproc, jobs_not_implemented
wait_for_active_job) for the zero-stage paths -/

/-- Python-level errors observable from run_subproc on the degenerate
inputs: the IndexError of indexing an empty list or string, the
AttributeError of calling a method on None, and XonshError. -/
inductive PyErr
  | indexError
  | attributeError
  | xonsh (msg : String)
deriving DecidableEq

/-- Post-completion observables of a pipeline stage object: whether it is a
proc proxy, the readable data of its stdout when that is a real pipe
(`none` models stdout being None or sys.stdout), and its returncode. -/
structure ProcR where
  isProxy : Bool
  stdoutData : Option String
  returncode : RC
deriving DecidableEq

/-- The active-job record used by wait_for_active_job: the handle of the
last stage object (run_subproc stores prev_proc there, which is None for a
zero-stage pipeline) and the background flag. -/
structure JobRec where
  obj : Option ProcR
  bg : Bool
deriving DecidableEq

/-- Model of wait_for_active_job (jobs_not_implemented.py lines 20-28): no
active job returns at once; an active job whose object is None fails with
AttributeError at None.wait(); otherwise the wait succeeds.  (The isinstance
check against the local ProcProxy namedtuple is False for every object
run_subproc ever registers.) -/
def wait_for_active_job (aj : Option JobRec) : Except PyErr Unit :=
  match aj with
  | none => .ok ()
  | some j =>
    match j.obj with
    | none => .error .attributeError
    | some _ => .ok ()

/-- An entry of the command list handed to run_subproc: a connector string
or a stage list (whose construction is delegated to the stage builder). -/
inductive Entry (β : Type)
  | str (s : String)
  | stage (b : β)

/-- Model of get_proc (proc.py lines 547-562) as run_subproc sees it for
string entries: indexing an empty string raises IndexError, and a non-empty
string entry returns None after the string-typed cmd check.  Stage entries
are built by the abstract stage builder (the full stage-construction path,
which the zero-stage claims never reach). -/
def getProcEntry {β : Type} (buildStage : β → Except PyErr (Option ProcR))
    (e : Entry β) : Except PyErr (Option ProcR) :=
  match e with
  | .str s => if s.isEmpty then .error .indexError else .ok none
  | .stage b => buildStage b

/-- The stage loop of run_subproc (built_ins.py lines 220-225): build each
entry, skip None procs, collect the rest in order. -/
def buildLoop {β : Type} (buildStage : β → Except PyErr (Option ProcR)) :
    List (Entry β) → Except PyErr (List ProcR)
  | [] => .ok []
  | e :: rest =>
    match getProcEntry buildStage e with
    | .error err => .error err
    | .ok none => buildLoop buildStage rest
    | .ok (some p) =>
      match buildLoop buildStage rest with
      | .error err => .error err
      | .ok ps => .ok (p :: ps)

/-- Value returned by run_subproc: the implicit None of the background early
return, the captured stdout string, or the normalised return code. -/
inductive RunOut
  | noneOut
  | strOut (s : String)
  | codeOut (b : Bool)
deriving DecidableEq

/-- Model of run_subproc (built_ins.py lines 198-253): index the last entry
(IndexError on an empty list), strip a trailing ampersand entry into the
background flag, build the stages, register a job holding prev_proc unless
the last proc is a proxy, return None for background pipelines, wait for
the active job (AttributeError when the registered object is None), read
prev_proc's stdout (AttributeError when prev_proc is None), and return the
captured output or the normalised return code. -/
def run_subproc {β : Type} (buildStage : β → Except PyErr (Option ProcR))
    (cmds : List (Entry β)) (captured : Bool) (aj0 : Option JobRec) :
    Except PyErr RunOut :=
  match cmds.getLast? with
  | none => .error .indexError
  | some lastE =>
    let background := match lastE with | .str s => s == "&" | .stage _ => false
    let cmds := if background then cmds.dropLast else cmds
    match buildLoop buildStage cmds with
    | .error e => .error e
    | .ok procs =>
      let prev := procs.getLast?
      let prevIsProxy := match prev with | some p => p.isProxy | none => false
      let aj := if prevIsProxy then aj0 else some { obj := prev, bg := background }
      if background then .ok .noneOut
      else
        match wait_for_active_job aj with
        | .error e => .error e
        | .ok _ =>
          match prev with
          | none => .error .attributeError
          | some p =>
            let output := match p.stdoutData with | some s => s | none => ""
            if captured then .ok (.strOut output)
            else .ok (.codeOut (get_return_code p.returncode))

/-- A trivial stage builder over a trivial stage payload, for the concrete
zero-stage runs. -/
def c7build : Unit → Except PyErr (Option ProcR) := fun _ => .ok none

/-- A file-system oracle on which every open succeeds. -/
def fsAll : String → Char → Bool := fun _ _ => true

/-- A stream map with only stdin bound. -/
def sIn : Streams := ⟨some (.fd 0), none, none⟩

/-- The stream map sIn after a stderr write redirection to the file g. -/
def sIn2 : Streams := ⟨some (.fd 0), none, some (.file "g" 'w')⟩

/-- A stream map with only stderr bound. -/
def sErr : Streams := ⟨none, none, some (.file "e" 'w')⟩

/-! ## Theorems -/

/-- C1: an and composite normalises to the conjunction and an or composite
to the disjunction of the normalised sub-results, and the second command is
built and waited on exactly when the first command's normalised result does
not already determine the outcome (first true for and, first false for
or); the first command is always run, in order. -/
theorem c1_and_or_short_circuit : ∀ {α : Type} (ex : α → RC) (cmd1 cmd2 : α),
    (andProcRun ex cmd1 cmd2).1 = (get_return_code (ex cmd1) && get_return_code (ex cmd2)) ∧
    (orProcRun ex cmd1 cmd2).1 = (get_return_code (ex cmd1) || get_return_code (ex cmd2)) ∧
    (andProcRun ex cmd1 cmd2).2 =
      (if get_return_code (ex cmd1) then [cmd1, cmd2] else [cmd1]) ∧
    (orProcRun ex cmd1 cmd2).2 =
      (if get_return_code (ex cmd1) then [cmd1] else [cmd1, cmd2]) := by
  intro α ex cmd1 cmd2
  unfold andProcRun orProcRun
  cases h : get_return_code (ex cmd1) <;> simp [h]

/-- C5: in the table where l is the word-split of "ls -CF" and ls the
word-split of "ls --color=auto", looking up l yields exactly the tokens
ls, --color=auto, -CF: the self-reference on ls stops the recursion and the
accumulated trailing -CF is appended. -/
theorem c5_concrete_alias_expansion :
    aliasGet exTable "l" = .out (.ok (.toks ["ls", "--color=auto", "-CF"])) := by
  rfl

theorem filter_length_mono (l : List String) (p q : String → Bool)
    (h : ∀ x, p x = true → q x = true) :
    (l.filter p).length ≤ (l.filter q).length := by
  induction l with
  | nil => simp
  | cons a t ih =>
    by_cases hp : p a
    · have hq := h a hp
      simp [List.filter_cons, hp, hq]
      omega
    · cases hq : q a <;> simp [List.filter_cons, hp, hq] <;> omega

theorem filter_unseen_lt (l : List String) (t : String) (seen : List String)
    (hmem : t ∈ l) (hns : t ∉ seen) :
    (l.filter (fun k => !(decide (k ∈ t :: seen)))).length <
      (l.filter (fun k => !(decide (k ∈ seen)))).length := by
  have himp : ∀ x, (fun k => !(decide (k ∈ t :: seen))) x = true →
      (fun k => !(decide (k ∈ seen))) x = true := by
    intro x hx
    simp only [Bool.not_eq_true', decide_eq_false_iff_not, List.mem_cons] at hx ⊢
    exact fun hmem2 => hx (Or.inr hmem2)
  induction l with
  | nil => cases hmem
  | cons a rest ih =>
    have hmono := filter_length_mono rest _ _ himp
    rcases List.mem_cons.mp hmem with rfl | hmem2
    · have hc1 : ¬((!(decide (t ∈ t :: seen))) = true) := by simp
      have hc2 : (!(decide (t ∈ seen))) = true := by simpa using hns
      simp only [List.filter_cons]
      rw [if_neg hc1, if_pos hc2, List.length_cons]
      omega
    · have hlt := ih hmem2
      simp only [List.filter_cons]
      by_cases hc1 : (!(decide (a ∈ t :: seen))) = true
      · have hc2 := himp a hc1
        rw [if_pos hc1, if_pos hc2, List.length_cons, List.length_cons]
        omega
      · rw [if_neg hc1]
        by_cases hc2 : (!(decide (a ∈ seen))) = true
        · rw [if_pos hc2, List.length_cons]; omega
        · rw [if_neg hc2]; omega

theorem mem_keys_of_lookupRaw (A : AliasTab) (t : String)
    (hk : lookupRaw A t ≠ none) : t ∈ A.map Prod.fst := by
  induction A with
  | nil => simp [lookupRaw] at hk
  | cons kv rest ih =>
    obtain ⟨k', v⟩ := kv
    by_cases h : k' = t
    · simp [h]
    · simp only [lookupRaw, h, if_neg, if_false] at hk
      simpa using Or.inr (ih (by simpa [lookupRaw, h] using hk))

theorem unseenCount_lt (A : AliasTab) (t : String) (seen : List String)
    (hk : lookupRaw A t ≠ none) (hns : t ∉ seen) :
    unseenCount A (t :: seen) < unseenCount A seen :=
  filter_unseen_lt (A.map Prod.fst) t seen (mem_keys_of_lookupRaw A t hk) hns

theorem evalAliasF_fuel_irrel : ∀ (f₁ f₂ : Nat) (A : AliasTab) (v : AliasVal)
    (seen acc : List String), unseenCount A seen < f₁ → unseenCount A seen < f₂ →
    evalAliasF A f₁ v seen acc = evalAliasF A f₂ v seen acc := by
  intro f₁
  induction f₁ with
  | zero => intro f₂ A v seen acc h1 _; omega
  | succ n ih =>
    intro f₂ A v seen acc h1 h2
    cases f₂ with
    | zero => omega
    | succ m =>
      cases v with
      | call id => rfl
      | toks ts =>
        cases ts with
        | nil => rfl
        | cons t rest =>
          simp only [evalAliasF]
          cases hl : lookupRaw A t with
          | none => rfl
          | some v' =>
            by_cases hs : t ∈ seen
            · simp [hs]
            · simp only [hs, if_false, if_neg, not_false_iff]
              have hlt := unseenCount_lt A t seen (by simp [hl]) hs
              exact ih m A v' (t :: seen) (rest ++ acc) (by omega) (by omega)

theorem evalAliasF_no_fuelOut : ∀ (f : Nat) (A : AliasTab) (v : AliasVal)
    (seen acc : List String), unseenCount A seen < f →
    evalAliasF A f v seen acc ≠ .fuelOut := by
  intro f
  induction f with
  | zero => intro A v seen acc h; omega
  | succ n ih =>
    intro A v seen acc h
    cases v with
    | call id => simp [evalAliasF]
    | toks ts =>
      cases ts with
      | nil => simp [evalAliasF]
      | cons t rest =>
        simp only [evalAliasF]
        cases hl : lookupRaw A t with
        | none => simp
        | some v' =>
          by_cases hs : t ∈ seen
          · simp [hs]
          · simp only [hs, if_false, if_neg, not_false_iff]
            have hlt := unseenCount_lt A t seen (by simp [hl]) hs
            exact ih A v' (t :: seen) (rest ++ acc) (by omega)

/-- C3: alias lookup terminates for every table, every value and every seen
set: any fuel beyond the number of unseen table keys already computes the
final eval_alias answer and never runs out, even on mutually cyclic tables;
and expansion stops immediately, returning the value plus the accumulated
trailing args, as soon as the head token is already seen or is not a table
key. -/
theorem c3_alias_lookup_terminates :
    (∀ (A : AliasTab) (v : AliasVal) (seen acc : List String) (fuel : Nat),
        unseenCount A seen < fuel →
        evalAliasF A fuel v seen acc = eval_alias A v seen acc ∧
          evalAliasF A fuel v seen acc ≠ .fuelOut) ∧
    (∀ (A : AliasTab) (t : String) (rest seen acc : List String),
        t ∈ seen ∨ lookupRaw A t = none →
        eval_alias A (.toks (t :: rest)) seen acc = .ok (.toks (t :: rest ++ acc))) := by
  constructor
  · intro A v seen acc fuel h
    exact ⟨evalAliasF_fuel_irrel fuel (unseenCount A seen + 1) A v seen acc h (by omega),
      evalAliasF_no_fuelOut fuel A v seen acc h⟩
  · intro A t rest seen acc h
    unfold eval_alias
    rcases h with h | h
    · simp only [evalAliasF]
      cases hl : lookupRaw A t <;> simp [h]
    · simp [evalAliasF, h]

/-- Witness for C3 on the two-entry cyclic table: fuel 5 exceeds the two
unseen keys, the fuelled run agrees with eval_alias and does not run out,
and a head already in the seen set stops expansion at once. -/
theorem c3_witness :
    evalAliasF cycTab 5 (.toks ["a"]) [] [] = eval_alias cycTab (.toks ["a"]) [] [] ∧
    evalAliasF cycTab 5 (.toks ["a"]) [] [] ≠ .fuelOut ∧
    eval_alias cycTab (.toks ["a", "x"]) ["a"] [] = .ok (.toks ["a", "x"]) := by
  have h1 := c3_alias_lookup_terminates.1 cycTab (.toks ["a"]) [] [] 5 (by decide)
  have h2 := c3_alias_lookup_terminates.2 cycTab "a" ["x"] ["a"] [] (Or.inl (by decide))
  exact ⟨h1.1, h1.2, by simpa using h2⟩

/-- C9 counterexample: on the very table of the concrete scenario, looking
up l yields the fixpoint tokens, but evaluating that token list again
against the same table duplicates the spliced --color=auto argument, so the
expansion is not idempotent on its own results. -/
theorem c9_counterexample :
    aliasGet exTable "l" = .out (.ok (.toks ["ls", "--color=auto", "-CF"])) ∧
    eval_alias exTable (.toks ["ls", "--color=auto", "-CF"]) [] [] =
      .ok (.toks ["ls", "--color=auto", "--color=auto", "-CF"]) ∧
    AliasRes.toks ["ls", "--color=auto", "--color=auto", "-CF"] ≠
      AliasRes.toks ["ls", "--color=auto", "-CF"] := by
  refine ⟨rfl, rfl, by decide⟩

/-- C9 amended: re-evaluation is stable only for results whose head token
is not a key of the table: if a lookup yields a token list whose head is
not a key, evaluating that list again yields the list itself; when the head
is a key (the recursion was stopped by the seen set), re-expansion may
differ. -/
theorem c9_amended_fixpoint : ∀ (A : AliasTab) (k t : String) (rest : List String),
    aliasGet A k = .out (.ok (.toks (t :: rest))) →
    lookupRaw A t = none →
    eval_alias A (.toks (t :: rest)) [] [] = .ok (.toks (t :: rest)) := by
  intro A k t rest _ hl
  unfold eval_alias
  simp [evalAliasF, hl]

/-- Witness for the amended C9: on the one-entry table, the lookup of x
yields tokens with non-key head echo, and re-evaluating them returns the
same list. -/
theorem c9_witness :
    aliasGet fixTable "x" = .out (.ok (.toks ["echo", "hi"])) ∧
    eval_alias fixTable (.toks ["echo", "hi"]) [] [] = .ok (.toks ["echo", "hi"]) :=
  ⟨rfl, c9_amended_fixpoint fixTable "x" "echo" ["hi"] rfl rfl⟩

theorem simpleProcProxyRun_returncode (g : List String → String → Except Unit SimpleRes)
    (args : List String) (i : Option String) (st : ProxyState) :
    (simpleProcProxyRun g args i st).returncode =
      some (RC.b (wrapped_simple_command g args (i.getD "")).1) := by
  cases i <;> rfl

/-- C4 counterexample: a simple callable that returns a one-element
sequence without raising still yields returncode False, because the wrapper
indexes item 1 of the sequence and swallows the resulting IndexError; so
"true whenever the callable returns without raising" fails on the code. -/
theorem c4_counterexample :
    (simpleProcProxyRun c4f [] (some "") st0).returncode = some (RC.b false) ∧
    c4f [] "" = .ok (.seq [some "x"]) :=
  ⟨rfl, rfl⟩

/-- C4 amended: for a four-arg callable the returncode after the run equals
the callable's return value when non-null and True otherwise; for a simple
callable the returncode is True exactly when the callable returns, without
raising, a result of a supported shape (anything except a sequence of fewer
than two items), and False exactly when the callable raises (the exception
is swallowed, not propagated) or returns such a short sequence (whose
IndexError is swallowed likewise). -/
theorem c4_amended_proxy_returncodes :
    ∀ (f : List String → String → Option RC × String × String)
      (g : List String → String → Except Unit SimpleRes)
      (args : List String) (i : Option String) (st : ProxyState),
    (procProxyRun (some f) args i st).returncode =
      some ((f args (i.getD "")).1.getD (RC.b true)) ∧
    ((simpleProcProxyRun g args i st).returncode = some (RC.b true) ↔
      ∃ r, g args (i.getD "") = .ok r ∧ goodShape r) ∧
    ((simpleProcProxyRun g args i st).returncode = some (RC.b false) ↔
      (g args (i.getD "") = .error () ∨
        ∃ l, g args (i.getD "") = .ok (.seq l) ∧ l.length < 2)) := by
  intro f g args i st
  refine ⟨by cases i <;> rfl, ?_, ?_⟩ <;>
    rw [simpleProcProxyRun_returncode] <;>
    unfold wrapped_simple_command <;>
    cases hg : g args (i.getD "") with
  | error e =>
    cases e
    simp [hg]
  | ok r =>
    cases r with
    | str s => simp [hg, goodShape]
    | seq l =>
      match l with
      | [] => simp [hg, goodShape]
      | [a] => simp [hg, goodShape]
      | a :: b :: l' =>
        simp [hg, goodShape]
        try omega
    | other s => simp [hg, goodShape]
    | nil => simp [hg, goodShape]

/-- C6 counterexample: on POSIX (the non-Windows configuration) the
resolver keeps the word-split shebang as is, so an executable script whose
first line is a /usr/bin/env python3 shebang resolves to an argv that still
begins with /usr/bin/env, not to the normalised python3 argv the claim
states. -/
theorem c6_counterexample :
    get_script_subproc_command false [] envScript "/tmp/x" [] =
      .ok ["/usr/bin/env", "python3", "/tmp/x"] ∧
    (["/usr/bin/env", "python3", "/tmp/x"] : List String) ≠ ["python3", "/tmp/x"] :=
  ⟨rfl, by decide⟩

/-- C6 amended: the interpreter-normalisation rules are applied to the
word-split shebang only on Windows, where the resolver returns python3
followed by the path and the given args; on POSIX the resolver returns the
unnormalised /usr/bin/env python3 prefix followed by the path and args. -/
theorem c6_amended_shebang_resolution : ∀ (args : List String),
    get_script_subproc_command true [] envScript "/tmp/x" args =
      .ok ("python3" :: "/tmp/x" :: args) ∧
    get_script_subproc_command false [] envScript "/tmp/x" args =
      .ok ("/usr/bin/env" :: "python3" :: "/tmp/x" :: args) := by
  intro args
  exact ⟨rfl, rfl⟩

/-- C7 counterexample: a zero-stage foreground run is not a no-op success:
the empty command list raises IndexError at the trailing-ampersand test,
and a connector-only list raises AttributeError when the waiter calls wait
on the registered None object. -/
theorem c7_counterexample :
    run_subproc c7build ([] : List (Entry Unit)) true none = .error .indexError ∧
    run_subproc c7build [Entry.str "|"] true none = .error .attributeError :=
  ⟨rfl, rfl⟩

/-- C7 amended: running a command list with zero stages is never a reported
success: the empty list raises IndexError, a connector-only foreground list
raises AttributeError while waiting on the active job, and only the lone
background marker completes without error, returning None rather than a
success status. -/
theorem c7_amended_zero_stage : ∀ {β : Type} (bs : β → Except PyErr (Option ProcR))
    (captured : Bool) (aj : Option JobRec),
    run_subproc bs ([] : List (Entry β)) captured aj = .error .indexError ∧
    run_subproc bs [Entry.str "|"] captured aj = .error .attributeError ∧
    run_subproc bs [Entry.str "&"] captured aj = .ok .noneOut := by
  intro β bs captured aj
  exact ⟨rfl, rfl, rfl⟩

/-- C10: any token whose ampersand-deleted form is an err-marker, then the
greater-than sign, then an out-marker (so in particular the fd-duplication
spelling 2 greater-than ampersand 1) takes the stderr-merge branch: stderr
is bound to the merge-to-stdout marker when it is unbound, and the
multiple-redirects-for-stderr error is raised exactly when stderr is
already bound; the fd-duplication machinery is never consulted. -/
theorem c10_e2o_merge : ∀ (fs : String → Char → Bool) (s : Streams) (r : String)
    (loc : Option String), stripAmp r ∈ E2O_MAP →
    redirectStreams fs s r loc =
      (if s.stderr.isSome then .error (.xonsh mStderr)
       else .ok { s with stderr := some RBind.stdoutMerge }) := by
  intro fs s r loc h
  unfold redirectStreams e2oStep
  rw [if_pos h]

/-- Witness for C10 at the token 2 greater-than ampersand 1: from an empty
map stderr becomes the merge marker; with stderr bound the stderr error is
raised. -/
theorem c10_witness :
    redirectStreams fsAll emptyStreams "2>&1" none =
      .ok ⟨none, none, some RBind.stdoutMerge⟩ ∧
    redirectStreams fsAll sErr "2>&1" none = .error (.xonsh mStderr) := by
  have h1 := c10_e2o_merge fsAll emptyStreams "2>&1" none (by decide)
  have h2 := c10_e2o_merge fsAll sErr "2>&1" none (by decide)
  rw [h1, h2]
  exact ⟨rfl, rfl⟩

theorem is_binary_scan_iff : ∀ (l : List Char) (n : Nat),
    is_binary_scan l n = true ↔ hasEarlyNul l n := by
  intro l
  induction l with
  | nil =>
    intro n
    cases n <;> simp [is_binary_scan, hasEarlyNul]
  | cons c rest ih =>
    intro n
    cases n with
    | zero => simp [is_binary_scan, hasEarlyNul]
    | succ m =>
      by_cases h0 : c = Char.ofNat 0
      · simp only [is_binary_scan, if_pos h0]
        constructor
        · intro _
          exact ⟨0, by omega, by simp, by simpa using h0, fun j hj => by omega⟩
        · intro _; trivial
      · by_cases hn : c = '\n'
        · simp only [is_binary_scan, if_neg h0, if_pos hn]
          constructor
          · intro hfalse; cases hfalse
          · rintro ⟨i, hi80, hilen, hnul, hpr⟩
            exfalso
            cases i with
            | zero => exact h0 (by simpa using hnul)
            | succ i' => exact hpr 0 (by omega) (by simpa using hn)
        · simp only [is_binary_scan, if_neg h0, if_neg hn]
          rw [ih m]
          unfold hasEarlyNul
          constructor
          · rintro ⟨i, hi, hilen, hnul, hpr⟩
            refine ⟨i + 1, by omega, by simp; omega, by simpa using hnul, ?_⟩
            intro j hj
            cases j with
            | zero => simpa using hn
            | succ j' => simpa using hpr j' (by omega)
          · rintro ⟨i, hi, hilen, hnul, hpr⟩
            cases i with
            | zero => exact absurd (by simpa using hnul) h0
            | succ i' =>
              refine ⟨i', by omega, by simp at hilen; omega, by simpa using hnul, ?_⟩
              intro j hj
              simpa using hpr (j + 1) (by omega)

theorem splitWsAux_ne_nil : ∀ (l cur : List Char), cur ≠ [] → splitWsAux l cur ≠ [] := by
  intro l
  induction l with
  | nil =>
    intro cur h
    simp only [splitWsAux]
    rw [if_neg h]
    exact List.cons_ne_nil _ _
  | cons c rest ih =>
    intro cur h
    simp only [splitWsAux]
    by_cases hs : isSpace c = true
    · rw [if_pos hs, if_neg h]
      exact List.cons_ne_nil _ _
    · rw [if_neg hs]
      exact ih (c :: cur) (List.cons_ne_nil _ _)

theorem dropWhile_head_false (p : Char → Bool) (l : List Char) :
    l.dropWhile p = [] ∨ ∃ c t, l.dropWhile p = c :: t ∧ p c = false := by
  induction l with
  | nil => left; rfl
  | cons a t ih =>
    by_cases h : p a = true
    · rw [List.dropWhile_cons, if_pos h]
      exact ih
    · right
      exact ⟨a, t, by rw [List.dropWhile_cons, if_neg h], by simpa using h⟩

theorem dropWhile_suffix_exists (p : Char → Bool) (l : List Char) :
    ∃ pre, l = pre ++ l.dropWhile p := by
  induction l with
  | nil => exact ⟨[], rfl⟩
  | cons a t ih =>
    by_cases h : p a = true
    · obtain ⟨pre, hp⟩ := ih
      refine ⟨a :: pre, ?_⟩
      rw [List.dropWhile_cons, if_pos h, List.cons_append, ← hp]
    · refine ⟨[], ?_⟩
      rw [List.dropWhile_cons, if_neg h]
      rfl

theorem trimRightWs_front (l : List Char) : ∃ k, l = trimRightWs l ++ k := by
  obtain ⟨pre, hp⟩ := dropWhile_suffix_exists isSpace l.reverse
  have h2 := congrArg List.reverse hp
  rw [List.reverse_reverse, List.reverse_append] at h2
  exact ⟨pre.reverse, h2⟩

theorem trimWs_head (l : List Char) (h : trimWs l ≠ []) :
    ∃ c t, trimWs l = c :: t ∧ isSpace c = false := by
  rcases dropWhile_head_false isSpace l with h0 | ⟨c, t, hct, hc⟩
  · exfalso
    apply h
    unfold trimWs
    rw [h0]
    rfl
  · have htw : trimWs l = trimRightWs (c :: t) := by
      unfold trimWs
      rw [hct]
    obtain ⟨k, hk⟩ := trimRightWs_front (c :: t)
    cases htr : trimRightWs (c :: t) with
    | nil => rw [htw, htr] at h; exact absurd rfl h
    | cons d r =>
      rw [htr, List.cons_append] at hk
      have hcd := List.cons_eq_cons.mp hk
      refine ⟨d, r, by rw [htw, htr], ?_⟩
      rw [← hcd.1]
      exact hc

theorem shebangInterp_ne_nil (line : List Char) : shebangInterp line ≠ [] := by
  rcases line with _ | ⟨c1, _ | ⟨c2, rest⟩⟩
  · simp [shebangInterp]
  · simp [shebangInterp]
  · simp only [shebangInterp]
    by_cases hsb : c1 = '#' ∧ c2 = '!'
    · rw [if_pos hsb]
      by_cases hemp : trimWs rest = []
      · rw [if_pos hemp]
        simp
      · rw [if_neg hemp]
        obtain ⟨c, t, hct, hc⟩ := trimWs_head rest hemp
        rw [hct]
        have hne : splitWsL (c :: t) ≠ [] := by
          unfold splitWsL
          simp only [splitWsAux]
          rw [if_neg (by simp [hc] : ¬(isSpace c = true))]
          exact splitWsAux_ne_nil t [c] (List.cons_ne_nil _ _)
        simpa using hne
    · rw [if_neg hsb]
      simp

/-- C8 counterexample: a file with a NUL byte at offset 3 of its first 80
bytes, but behind a newline, is not invoked directly: the scan stops at the
newline, so the resolver goes through shebang resolution and produces the
default xonsh interpreter argv instead of the direct argv the claim
states. -/
theorem c8_counterexample :
    get_script_subproc_command false [] nulAfterNl "/tmp/y" [] =
      .ok ["xonsh", "/tmp/y"] ∧
    (["xonsh", "/tmp/y"] : List String) ≠ ["/tmp/y"] ∧
    nulAfterNl.content.getD 3 ' ' = Char.ofNat 0 ∧ (3 : Nat) < 80 ∧
    3 < nulAfterNl.content.length :=
  ⟨rfl, by decide, rfl, by omega, by decide⟩

/-- C8 amended: on POSIX, an executable resolved file is invoked directly,
bypassing shebang-interpreter resolution, if and only if a NUL byte occurs
within the file's first 80 bytes with no earlier newline (the scan stops at
the first newline or end of file); on Windows a PATHEXT extension is a
further direct-invocation route. -/
theorem c8_amended_binary_heuristic : ∀ (file : SFile) (fname : String)
    (args : List String), file.isExec = true →
    (get_script_subproc_command false [] file fname args = .ok (fname :: args) ↔
      hasEarlyNul file.content 80) := by
  intro file fname args hex
  unfold get_script_subproc_command
  rw [hex]
  rw [if_neg (by simp)]
  by_cases hb : is_binary file.content
  · rw [if_pos hb]
    exact iff_of_true rfl ((is_binary_scan_iff file.content 80).mp hb)
  · rw [if_neg hb]
    rw [if_neg (by simp : ¬((false && List.contains [] (extOf fname).toUpper) = true))]
    constructor
    · intro he
      exfalso
      have hne := shebangInterp_ne_nil (trimWs (readFirstLine file.content))
      simp only [Bool.false_eq_true, if_false, Except.ok.injEq] at he
      have hlen := congrArg List.length he
      simp only [List.length_append, List.length_cons] at hlen
      exact hne (List.length_eq_zero.mp (by omega))
    · intro hN
      exact absurd ((is_binary_scan_iff file.content 80).mpr hN) hb

/-- Witness for the amended C8: a file whose first byte is NUL satisfies
the early-NUL condition and is invoked directly. -/
theorem c8_witness :
    get_script_subproc_command false [] binFile "b" [] = .ok ["b"] ∧
    hasEarlyNul binFile.content 80 := by
  have hN : hasEarlyNul binFile.content 80 :=
    ⟨0, by omega, by simp [binFile], by simp [binFile], fun j hj => by omega⟩
  exact ⟨(c8_amended_binary_heuristic binFile "b" [] rfl).mpr hN, hN⟩

theorem e2oStep_ok_facts {s s₁ : Streams} (h : e2oStep s = .ok s₁) :
    s.stderr = none ∧ s₁.stdin = s.stdin ∧ s₁.stdout = s.stdout ∧
      s₁.stderr = some RBind.stdoutMerge := by
  unfold e2oStep at h
  by_cases h1 : s.stderr.isSome = true
  · rw [if_pos h1] at h; exact Except.noConfusion h
  · rw [if_neg h1] at h
    have hs₁ := Except.ok.inj h
    exact ⟨Option.not_isSome_iff_eq_none.mp h1, by rw [← hs₁], by rw [← hs₁],
      by rw [← hs₁]⟩

theorem e2oStep_err (s : Streams) (h1 : s.stderr.isSome = true) :
    e2oStep s = .error (.xonsh mStderr) := by
  unfold e2oStep
  rw [if_pos h1]

theorem readStep_ok_facts {fs s r o d t s₁}
    (h : readStep fs s r o d t = .ok s₁) :
    ¬(o.length > 0 ∨ d.length > 0) ∧ s.stdin = none ∧
      s₁.stdout = s.stdout ∧ s₁.stderr = s.stderr ∧ s₁.stdin.isSome = true := by
  unfold readStep at h
  by_cases h1 : o.length > 0 ∨ d.length > 0
  · rw [if_pos h1] at h; exact Except.noConfusion h
  · rw [if_neg h1] at h
    by_cases h2 : s.stdin.isSome = true
    · rw [if_pos h2] at h; exact Except.noConfusion h
    · rw [if_neg h2] at h
      cases ho : openTarget fs t 'r' with
      | error e => rw [ho] at h; exact Except.noConfusion h
      | ok b =>
        rw [ho] at h
        have hs₁ := Except.ok.inj h
        exact ⟨h1, Option.not_isSome_iff_eq_none.mp h2, by rw [← hs₁],
          by rw [← hs₁], by rw [← hs₁]; rfl⟩

theorem readStep_err (fs : String → Char → Bool) (s : Streams) (r : String)
    (o d : List Char) (t : Tgt) (h1 : ¬(o.length > 0 ∨ d.length > 0))
    (h2 : s.stdin.isSome = true) :
    readStep fs s r o d t = .error (.xonsh mStdin) := by
  unfold readStep
  rw [if_neg h1, if_pos h2]

theorem writeStep_ok_facts {fs s r o d t m s₁}
    (h : writeStep fs s r o d t m = .ok s₁) :
    ¬(d.length > 0) ∧
    ((o = ['&'] ∨ o = ['a'] ∨ o = ['a', 'l', 'l']) ∧ s.stderr = none ∧ s.stdout = none ∧
        s₁.stdin = s.stdin ∧ s₁.stdout.isSome = true ∧ s₁.stderr.isSome = true ∨
      (o = ['2'] ∨ o = ['e'] ∨ o = ['e', 'r', 'r']) ∧ s.stderr = none ∧
        s₁.stdin = s.stdin ∧ s₁.stdout = s.stdout ∧ s₁.stderr.isSome = true ∨
      (o = [] ∨ o = ['1'] ∨ o = ['o'] ∨ o = ['o', 'u', 't']) ∧ s.stdout = none ∧
        s₁.stdin = s.stdin ∧ s₁.stderr = s.stderr ∧ s₁.stdout.isSome = true) := by
  unfold writeStep at h
  by_cases hA : o = ['&'] ∨ o = ['a'] ∨ o = ['a', 'l', 'l']
  · rw [if_pos hA] at h
    by_cases h1 : s.stderr.isSome = true
    · rw [if_pos h1] at h; exact Except.noConfusion h
    · rw [if_neg h1] at h
      by_cases h2 : s.stdout.isSome = true
      · rw [if_pos h2] at h; exact Except.noConfusion h
      · rw [if_neg h2] at h
        by_cases h3 : d.length > 0
        · rw [if_pos h3] at h; exact Except.noConfusion h
        · rw [if_neg h3] at h
          cases ho : openTarget fs t m with
          | error e => rw [ho] at h; exact Except.noConfusion h
          | ok b =>
            rw [ho] at h
            have hs₁ := Except.ok.inj h
            exact ⟨h3, Or.inl ⟨hA, Option.not_isSome_iff_eq_none.mp h1,
              Option.not_isSome_iff_eq_none.mp h2, by rw [← hs₁],
              by rw [← hs₁]; rfl, by rw [← hs₁]; rfl⟩⟩
  · rw [if_neg hA] at h
    by_cases hE : o = ['2'] ∨ o = ['e'] ∨ o = ['e', 'r', 'r']
    · rw [if_pos hE] at h
      by_cases h1 : s.stderr.isSome = true
      · rw [if_pos h1] at h; exact Except.noConfusion h
      · rw [if_neg h1] at h
        by_cases h3 : d.length > 0
        · rw [if_pos h3] at h; exact Except.noConfusion h
        · rw [if_neg h3] at h
          cases ho : openTarget fs t m with
          | error e => rw [ho] at h; exact Except.noConfusion h
          | ok b =>
            rw [ho] at h
            have hs₁ := Except.ok.inj h
            exact ⟨h3, Or.inr (Or.inl ⟨hE, Option.not_isSome_iff_eq_none.mp h1,
              by rw [← hs₁], by rw [← hs₁], by rw [← hs₁]; rfl⟩)⟩
    · rw [if_neg hE] at h
      by_cases hO : o = [] ∨ o = ['1'] ∨ o = ['o'] ∨ o = ['o', 'u', 't']
      · rw [if_pos hO] at h
        by_cases h2 : s.stdout.isSome = true
        · rw [if_pos h2] at h; exact Except.noConfusion h
        · rw [if_neg h2] at h
          by_cases h3 : d.length > 0
          · rw [if_pos h3] at h; exact Except.noConfusion h
          · rw [if_neg h3] at h
            cases ho : openTarget fs t m with
            | error e => rw [ho] at h; exact Except.noConfusion h
            | ok b =>
              rw [ho] at h
              have hs₁ := Except.ok.inj h
              exact ⟨h3, Or.inr (Or.inr ⟨hO, Option.not_isSome_iff_eq_none.mp h2,
                by rw [← hs₁], by rw [← hs₁], by rw [← hs₁]; rfl⟩)⟩
      · rw [if_neg hO] at h; exact Except.noConfusion h

theorem writeStep_err_all (fs : String → Char → Bool) (s : Streams) (r : String)
    (o d : List Char) (t : Tgt) (m : Char)
    (hA : o = ['&'] ∨ o = ['a'] ∨ o = ['a', 'l', 'l'])
    (hb : s.stderr.isSome = true ∨ s.stdout.isSome = true) :
    writeStep fs s r o d t m =
      .error (.xonsh (if s.stderr.isSome = true then mStderr else mStdout)) := by
  unfold writeStep
  rw [if_pos hA]
  by_cases h1 : s.stderr.isSome = true
  · rw [if_pos h1, if_pos h1]
  · rw [if_neg h1, if_neg h1]
    rcases hb with hb | hb
    · exact absurd hb h1
    · rw [if_pos hb]

theorem writeStep_err_err (fs : String → Char → Bool) (s : Streams) (r : String)
    (o d : List Char) (t : Tgt) (m : Char)
    (hE : o = ['2'] ∨ o = ['e'] ∨ o = ['e', 'r', 'r'])
    (h1 : s.stderr.isSome = true) :
    writeStep fs s r o d t m = .error (.xonsh mStderr) := by
  have hA : ¬(o = ['&'] ∨ o = ['a'] ∨ o = ['a', 'l', 'l']) := by
    rcases hE with rfl | rfl | rfl <;> decide
  unfold writeStep
  rw [if_neg hA, if_pos hE, if_pos h1]

theorem writeStep_err_out (fs : String → Char → Bool) (s : Streams) (r : String)
    (o d : List Char) (t : Tgt) (m : Char)
    (hO : o = [] ∨ o = ['1'] ∨ o = ['o'] ∨ o = ['o', 'u', 't'])
    (h2 : s.stdout.isSome = true) :
    writeStep fs s r o d t m = .error (.xonsh mStdout) := by
  have hA : ¬(o = ['&'] ∨ o = ['a'] ∨ o = ['a', 'l', 'l']) := by
    rcases hO with rfl | rfl | rfl | rfl <;> decide
  have hE : ¬(o = ['2'] ∨ o = ['e'] ∨ o = ['e', 'r', 'r']) := by
    rcases hO with rfl | rfl | rfl | rfl <;> decide
  unfold writeStep
  rw [if_neg hA, if_neg hE, if_pos hO, if_pos h2]

theorem writeStep_pres {fs s r o d t m s₁} (h : writeStep fs s r o d t m = .ok s₁) :
    (s.stdin.isSome = true → s₁.stdin = s.stdin) ∧
    (s.stdout.isSome = true → s₁.stdout = s.stdout) ∧
    (s.stderr.isSome = true → s₁.stderr = s.stderr) := by
  obtain ⟨-, hfacts⟩ := writeStep_ok_facts h
  rcases hfacts with ⟨-, he, ho2, h1, -, -⟩ | ⟨-, he, h1, h2, -⟩ | ⟨-, ho2, h1, h2, -⟩
  · exact ⟨fun _ => h1, fun hs => by rw [ho2] at hs; simp at hs,
      fun hs => by rw [he] at hs; simp at hs⟩
  · exact ⟨fun _ => h1, fun _ => h2, fun hs => by rw [he] at hs; simp at hs⟩
  · exact ⟨fun _ => h1, fun hs => by rw [ho2] at hs; simp at hs, fun _ => h2⟩

theorem e2oStep_empty_then (s : Streams) {s₀ : Streams}
    (h0 : e2oStep emptyStreams = .ok s₀)
    (hbind : (s₀.stdin.isSome = true ∧ s.stdin.isSome = true) ∨
      (s₀.stdout.isSome = true ∧ s.stdout.isSome = true) ∨
      (s₀.stderr.isSome = true ∧ s.stderr.isSome = true)) :
    e2oStep s = .error (.xonsh
      (if s₀.stderr.isSome = true ∧ s.stderr.isSome = true then mStderr
       else if s₀.stdout.isSome = true ∧ s.stdout.isSome = true then mStdout
       else mStdin)) := by
  obtain ⟨-, hin, hout, herr⟩ := e2oStep_ok_facts h0
  have hserr : s.stderr.isSome = true := by
    rcases hbind with h | h | h
    · rw [hin] at h; simp [emptyStreams] at h
    · rw [hout] at h; simp [emptyStreams] at h
    · exact h.2
  rw [if_pos ⟨by rw [herr]; rfl, hserr⟩]
  exact e2oStep_err s hserr

theorem readStep_empty_then (fs : String → Char → Bool) (s : Streams) (r : String)
    (o d : List Char) (t : Tgt) {s₀ : Streams}
    (h0 : readStep fs emptyStreams r o d t = .ok s₀)
    (hbind : (s₀.stdin.isSome = true ∧ s.stdin.isSome = true) ∨
      (s₀.stdout.isSome = true ∧ s.stdout.isSome = true) ∨
      (s₀.stderr.isSome = true ∧ s.stderr.isSome = true)) :
    readStep fs s r o d t = .error (.xonsh
      (if s₀.stderr.isSome = true ∧ s.stderr.isSome = true then mStderr
       else if s₀.stdout.isSome = true ∧ s.stdout.isSome = true then mStdout
       else mStdin)) := by
  obtain ⟨hlen, -, hout, herr, hin⟩ := readStep_ok_facts h0
  have hsin : s.stdin.isSome = true := by
    rcases hbind with h | h | h
    · exact h.2
    · rw [hout] at h; simp [emptyStreams] at h
    · rw [herr] at h; simp [emptyStreams] at h
  rw [if_neg (fun hcon => by rw [herr] at hcon; simp [emptyStreams] at hcon),
    if_neg (fun hcon => by rw [hout] at hcon; simp [emptyStreams] at hcon)]
  exact readStep_err fs s r o d t hlen hsin

theorem writeStep_empty_then (fs : String → Char → Bool) (s : Streams) (r : String)
    (o d : List Char) (t : Tgt) (m : Char) {s₀ : Streams}
    (h0 : writeStep fs emptyStreams r o d t m = .ok s₀)
    (hbind : (s₀.stdin.isSome = true ∧ s.stdin.isSome = true) ∨
      (s₀.stdout.isSome = true ∧ s.stdout.isSome = true) ∨
      (s₀.stderr.isSome = true ∧ s.stderr.isSome = true)) :
    writeStep fs s r o d t m = .error (.xonsh
      (if s₀.stderr.isSome = true ∧ s.stderr.isSome = true then mStderr
       else if s₀.stdout.isSome = true ∧ s.stdout.isSome = true then mStdout
       else mStdin)) := by
  obtain ⟨-, hfacts⟩ := writeStep_ok_facts h0
  rcases hfacts with ⟨hA, -, -, hin, hout, herr⟩ | ⟨hE2, -, hin, hout, herr⟩ |
    ⟨hO, -, hin, herr2, hout⟩
  · have hno_in : ¬(s₀.stdin.isSome = true ∧ s.stdin.isSome = true) := by
      rintro ⟨ha, -⟩
      rw [hin] at ha
      simp [emptyStreams] at ha
    by_cases hserr : s.stderr.isSome = true
    · rw [if_pos ⟨herr, hserr⟩]
      have hh := writeStep_err_all fs s r o d t m hA (Or.inl hserr)
      rw [if_pos hserr] at hh
      exact hh
    · have hsout : s.stdout.isSome = true := by
        rcases hbind with h | h | h
        · exact absurd h hno_in
        · exact h.2
        · exact absurd h.2 hserr
      rw [if_neg (fun hcon => hserr hcon.2), if_pos ⟨hout, hsout⟩]
      have hh := writeStep_err_all fs s r o d t m hA (Or.inr hsout)
      rw [if_neg hserr] at hh
      exact hh
  · have hserr : s.stderr.isSome = true := by
      rcases hbind with h | h | h
      · rw [hin] at h; simp [emptyStreams] at h
      · rw [hout] at h; simp [emptyStreams] at h
      · exact h.2
    rw [if_pos ⟨herr, hserr⟩]
    exact writeStep_err_err fs s r o d t m hE2 hserr
  · have hsout : s.stdout.isSome = true := by
      rcases hbind with h | h | h
      · rw [hin] at h; simp [emptyStreams] at h
      · exact h.2
      · rw [herr2] at h; simp [emptyStreams] at h
    rw [if_neg (fun hcon => by rw [herr2] at hcon; simp [emptyStreams] at hcon),
      if_pos ⟨hout, hsout⟩]
    exact writeStep_err_out fs s r o d t m hO hsout

/-- C2: redirection tokens never rebind a stream: a successful application
of the redirection parser leaves every already-bound stream untouched, and
whenever a token that (from an empty map) would bind some stream is applied
to a map in which such a stream is already bound, the parser instead raises
the corresponding XonshError: multiple-inputs-for-stdin,
multiple-redirects-for-stdout, or multiple-redirects-for-stderr (stderr
taking precedence over stdout for tokens that bind both).  Hence over any
token sequence starting from the empty map each of stdin, stdout and stderr
is bound at most once. -/
theorem c2_redirect_single_binding : ∀ (fs : String → Char → Bool) (s : Streams)
    (r : String) (loc : Option String),
    (∀ s₁, redirectStreams fs s r loc = .ok s₁ →
      (s.stdin.isSome = true → s₁.stdin = s.stdin) ∧
      (s.stdout.isSome = true → s₁.stdout = s.stdout) ∧
      (s.stderr.isSome = true → s₁.stderr = s.stderr)) ∧
    (∀ s₀, redirectStreams fs emptyStreams r loc = .ok s₀ →
      ((s₀.stdin.isSome = true ∧ s.stdin.isSome = true) ∨
        (s₀.stdout.isSome = true ∧ s.stdout.isSome = true) ∨
        (s₀.stderr.isSome = true ∧ s.stderr.isSome = true)) →
      redirectStreams fs s r loc = .error (.xonsh
        (if s₀.stderr.isSome = true ∧ s.stderr.isSome = true then mStderr
         else if s₀.stdout.isSome = true ∧ s.stdout.isSome = true then mStdout
         else mStdin))) := by
  intro fs s r loc
  constructor
  · intro s₁ h
    unfold redirectStreams at h
    by_cases hE : stripAmp r ∈ E2O_MAP
    · rw [if_pos hE] at h
      obtain ⟨hnone, h1, h2, h3⟩ := e2oStep_ok_facts h
      refine ⟨fun _ => h1, fun _ => h2, fun hs => ?_⟩
      rw [hnone] at hs
      simp at hs
    · rw [if_neg hE] at h
      cases hP : parseRedir r with
      | none =>
        simp only [hP] at h
        exact Except.noConfusion h
      | some tri =>
        obtain ⟨o, op, d0⟩ := tri
        simp only [hP] at h
        cases hD : dupStep r loc d0 with
        | error e =>
          simp only [hD] at h
          exact Except.noConfusion h
        | ok td =>
          obtain ⟨tg, d⟩ := td
          simp only [hD] at h
          cases op with
          | lt =>
            obtain ⟨-, hnone, h2, h3, -⟩ := readStep_ok_facts h
            refine ⟨fun hs => ?_, fun _ => h2, fun _ => h3⟩
            rw [hnone] at hs
            simp at hs
          | gt => exact writeStep_pres h
          | gtgt => exact writeStep_pres h
  · intro s₀ h0 hbind
    unfold redirectStreams at h0 ⊢
    by_cases hE : stripAmp r ∈ E2O_MAP
    · rw [if_pos hE] at h0 ⊢
      exact e2oStep_empty_then s h0 hbind
    · rw [if_neg hE] at h0 ⊢
      cases hP : parseRedir r with
      | none =>
        simp only [hP] at h0
        exact Except.noConfusion h0
      | some tri =>
        obtain ⟨o, op, d0⟩ := tri
        simp only [hP] at h0 ⊢
        cases hD : dupStep r loc d0 with
        | error e =>
          simp only [hD] at h0
          exact Except.noConfusion h0
        | ok td =>
          obtain ⟨tg, d⟩ := td
          simp only [hD] at h0 ⊢
          cases op with
          | lt => exact readStep_empty_then fs s r o d tg h0 hbind
          | gt => exact writeStep_empty_then fs s r o d tg 'w' h0 hbind
          | gtgt => exact writeStep_empty_then fs s r o d tg 'a' h0 hbind

/-- Witness for C2 on the stderr write token applied to a file target: a
stream map with only stdin bound keeps its stdin binding on success, and a
map with stderr already bound gets the multiple-redirects-for-stderr
error. -/
theorem c2_witness :
    redirectStreams fsAll sIn "2>" (some "g") = .ok sIn2 ∧
    sIn2.stdin = sIn.stdin ∧
    redirectStreams fsAll sErr "2>" (some "g") = .error (.xonsh mStderr) := by
  have hok : redirectStreams fsAll sIn "2>" (some "g") = .ok sIn2 := by rfl
  have h1 := (c2_redirect_single_binding fsAll sIn "2>" (some "g")).1 sIn2 hok
  have hok0 : redirectStreams fsAll emptyStreams "2>" (some "g") =
      .ok ⟨none, none, some (.file "g" 'w')⟩ := by rfl
  have h2 := (c2_redirect_single_binding fsAll sErr "2>" (some "g")).2
    ⟨none, none, some (.file "g" 'w')⟩ hok0 (Or.inr (Or.inr ⟨rfl, rfl⟩))
  exact ⟨hok, h1.1 rfl, h2⟩

end Xonsh
